import Mathlib

/-!
Shallow embedding of the tax-form page classifier and its evaluator
(`parse_tax_forms.py` and `evaluate.py`).

The embedding covers the pure core of the two scripts:

* the ordered pattern registry `ALL_FORM_PATTERNS` and the per-page form
  identification `identify_form_on_page` (the regexes of the source are
  modelled by a small token language with case-insensitive literals,
  one-or-more-whitespace and word-boundary tokens, matched anywhere in the
  text, mirroring `re.search` with `re.IGNORECASE`);
* the page-run segmentation `find_tax_forms_in_pdf`, embedded as a function
  of the per-page label stream (the PDF reading itself is I/O; a document is
  given as the list of labels of its pages 1, 2, ...; an unopenable document
  is the `none` case of `find_tax_forms_from_doc`, which yields the empty
  result of the source's `except` branch);
* the scorer `calculate_metrics_for_file` and the corpus aggregation of
  `evaluate_parser_accuracy` (Python sets of sorted item tuples become
  finite sets of `recordKey` tuples; float arithmetic is embedded as exact
  rational arithmetic, and Python's `round(x, 4)` as round-half-to-even at
  four decimal places).
-/

/-- A parsed form segment: one record of the JSON output, a dictionary with
keys `document_type`, `start_page`, `end_page` in the source. -/
structure FormRecord where
  document_type : String
  start_page : Int
  end_page : Int
deriving DecidableEq, Repr

/-! ### The pattern registry and per-page identification -/

/-- One token of the regular expressions used in `ALL_FORM_PATTERNS`:
a literal character (compared case-insensitively, for `re.IGNORECASE`),
a one-or-more-whitespace gap `\s+`, or a word boundary `\b`. -/
inductive RTok where
  | ch (c : Char)
  | ws
  | wb
deriving DecidableEq, Repr

/-- ASCII whitespace as matched by the regex class `\s`. -/
def isSpaceChar (c : Char) : Bool :=
  c = ' ' || c = '\t' || c = '\n' || c = '\r' || c = '\x0B' || c = '\x0C'

/-- ASCII word characters as matched by the regex class `\w`
(the boundary test of `\b`). -/
def isWordChar (c : Char) : Bool :=
  c.isAlphanum || c = '_'

/-- Whether the character preceding the current position is a word
character (`none` at the start of the text). -/
def prevIsWord : Option Char → Bool
  | none => false
  | some c => isWordChar c

/-- Whether the character at the current position is a word character
(end of text counts as no word character). -/
def headIsWord : List Char → Bool
  | [] => false
  | c :: _ => isWordChar c

/-- Match a token list at the current position of the text. `prev` is the
character just before the position, for word boundaries; `\s+` is matched
with full backtracking, as the regex engine does. -/
def matchHere (ts : List RTok) (prev : Option Char) (cs : List Char) : Bool :=
  match ts, prev, cs with
  | [], _, _ => true
  | RTok.wb :: ts, prev, cs =>
      (prevIsWord prev != headIsWord cs) && matchHere ts prev cs
  | RTok.ch _ :: _, _, [] => false
  | RTok.ch a :: ts, _, c :: cs =>
      (c.toLower == a.toLower) && matchHere ts (some c) cs
  | RTok.ws :: _, _, [] => false
  | RTok.ws :: ts, _, c :: cs =>
      isSpaceChar c &&
        (matchHere ts (some c) cs || matchHere (RTok.ws :: ts) (some c) cs)
termination_by 2 * cs.length + ts.length
decreasing_by all_goals simp_arith

/-- Match a token list anywhere at or after the current position:
the embedding of `pattern.search`. -/
def searchFrom (ts : List RTok) (prev : Option Char) (cs : List Char) : Bool :=
  matchHere ts prev cs ||
    match cs with
    | [] => false
    | c :: rest => searchFrom ts (some c) rest

/-- `pattern.search(text)` of the source: the pattern matches somewhere in
the text. -/
def regexSearch (ts : List RTok) (text : String) : Bool :=
  searchFrom ts none text.data

/-- A run of literal characters of a pattern. -/
def lits (s : String) : List RTok :=
  s.data.map RTok.ch

/-- The token form of the source regex `SCHEDULE\s+<n>\s+\(Form\s+1040\)`. -/
def schedulePattern (n : String) : List RTok :=
  lits "SCHEDULE" ++ [RTok.ws] ++ lits n ++ [RTok.ws] ++
    lits "(Form" ++ [RTok.ws] ++ lits "1040)"

/-- The token form of the source regex `Form\s+<n>\b`. -/
def formPattern (n : String) : List RTok :=
  lits "Form" ++ [RTok.ws] ++ lits n ++ [RTok.wb]

/-- The ordered pattern registry of `parse_tax_forms.py`, in its insertion
order (an `OrderedDict` in the source; its keys are the compiled regexes,
its values the document types). -/
def ALL_FORM_PATTERNS : List (List RTok × String) := [
  (schedulePattern "1", "f1040s1"),
  (schedulePattern "2", "f1040s2"),
  (schedulePattern "3", "f1040s3"),
  (schedulePattern "A", "f1040sa"),
  (schedulePattern "B", "f1040sb"),
  (schedulePattern "C", "f1040sc"),
  (schedulePattern "D", "f1040sd"),
  (schedulePattern "E", "f1040se"),
  (schedulePattern "8812", "f1040s8812"),
  (formPattern "1040", "1040f"),
  (formPattern "8889", "f8889"),
  (formPattern "8879", "f8879"),
  (formPattern "1116", "f1116"),
  (formPattern "4952", "f4952"),
  (formPattern "8949", "f8949"),
  (formPattern "8995", "f8995"),
  (formPattern "8959", "f8959"),
  (formPattern "8960", "f8960"),
  (formPattern "8582", "f8582"),
  (formPattern "8863", "f8863"),
  (formPattern "8812", "f8812"),
  (formPattern "2441", "f2441")]

/-- The scan of the registry in `identify_form_on_page`: first pattern whose
search succeeds wins. -/
def scanPatterns : List (List RTok × String) → String → Option String
  | [], _ => none
  | (p, doc_type) :: rest, text =>
      if regexSearch p text then some doc_type else scanPatterns rest text

/-- `identify_form_on_page` of the source, as a function of the text
extracted from the page's top-left clip region (the extraction itself is
PDF I/O). Returns the document type of the first matching registry pattern,
or `none`. -/
def identify_form_on_page (text : String) : Option String :=
  scanPatterns ALL_FORM_PATTERNS text

/-! ### The segment builder -/

/-- The page loop of `find_tax_forms_in_pdf`, as a function of the remaining
label stream, the 1-based number of the next page and the open segment
(`current_form` of the source: its document type and start page). Returns
the finalized segments emitted inside the loop and the segment still open
when the pages run out. -/
def scanPages :
    List (Option String) → Int → Option (String × Int) →
      List FormRecord × Option (String × Int)
  | [], _, current => ([], current)
  | l :: rest, pageNum, current =>
    match l with
    | none => scanPages rest (pageNum + 1) current
    | some form_type =>
      match current with
      | none => scanPages rest (pageNum + 1) (some (form_type, pageNum))
      | some (dt, sp) =>
        if form_type = dt then
          scanPages rest (pageNum + 1) (some (dt, sp))
        else
          let res := scanPages rest (pageNum + 1) (some (form_type, pageNum))
          (⟨dt, sp, pageNum - 1⟩ :: res.1, res.2)

/-- `find_tax_forms_in_pdf` of the source, as a function of the per-page
label stream of the document (page `i` of the PDF contributes element `i-1`,
the result of `identify_form_on_page` on its clip-region text). After the
loop, a still-open segment is closed at `len(doc)`, the page count. -/
def find_tax_forms_in_pdf (labels : List (Option String)) : List FormRecord :=
  let res := scanPages labels 1 none
  match res.2 with
  | none => res.1
  | some (dt, sp) => res.1 ++ [⟨dt, sp, (labels.length : Int)⟩]

/-- A document as the corpus evaluation sees it: `none` when `fitz.open`
fails (the `except` branch of the source prints a diagnostic and returns the
empty list), otherwise the label stream of its pages. -/
def find_tax_forms_from_doc : Option (List (Option String)) → List FormRecord
  | none => []
  | some labels => find_tax_forms_in_pdf labels

/-! ### The scorer -/

/-- The canonical tuple `tuple(sorted(p.items()))` the scorer builds from a
segment dictionary. The keys sort alphabetically as `document_type`,
`end_page`, `start_page`, so the tuple carries the fields in that order. -/
def recordKey (r : FormRecord) : String × Int × Int :=
  (r.document_type, r.end_page, r.start_page)

/-- `calculate_metrics_for_file` of `evaluate.py`: both lists become sets of
canonical tuples, and the counts are the sizes of the intersection and the
two differences, returned as `(tp, fp, fn)`. -/
def calculate_metrics_for_file (predicted ground_truth : List FormRecord) :
    Nat × Nat × Nat :=
  let predicted_set := (predicted.map recordKey).toFinset
  let truth_set := (ground_truth.map recordKey).toFinset
  ((predicted_set ∩ truth_set).card,
   (predicted_set \ truth_set).card,
   (truth_set \ predicted_set).card)

/-- The allow-list of desired document types, as written (identically) in
`main` of `parse_tax_forms.py` and in `evaluate_parser_accuracy`. -/
def desired_forms : List String :=
  ["f1040s1", "f1040s3", "f1040sa",
   "f1040sb", "f1040sc", "f1040sd", "f1040se",
   "1040f", "f8889", "f8949"]

/-- The filtering list comprehension of the two scripts: keep the segments
whose document type is in the allow-list. -/
def filterDesired (forms : List FormRecord) : List FormRecord :=
  forms.filter (fun form => form.document_type ∈ desired_forms)

/-- Python's `round` to an integer: round half to even. -/
def roundHalfEven (q : ℚ) : ℤ :=
  if q - ⌊q⌋ < 1/2 then ⌊q⌋
  else if (1 : ℚ)/2 < q - ⌊q⌋ then ⌊q⌋ + 1
  else if ⌊q⌋ % 2 = 0 then ⌊q⌋ else ⌊q⌋ + 1

/-- Python's `round(x, 4)`: round half to even at four decimal places. -/
def round4 (q : ℚ) : ℚ :=
  (roundHalfEven (q * 10000) : ℚ) / 10000

/-- A document of the corpus evaluation: what `find_tax_forms_in_pdf` gets
(`none` when the PDF cannot be opened, otherwise its label stream) paired
with its ground-truth segment list. -/
abbrev CorpusDoc := Option (List (Option String)) × List FormRecord

/-- The body of the corpus loop of `evaluate_parser_accuracy`: parse the
document, filter the predictions to the desired types, score against the
ground truth and add the file's counts to the running totals. -/
def addDocMetrics (acc : Nat × Nat × Nat) (doc : CorpusDoc) : Nat × Nat × Nat :=
  let predicted_forms := find_tax_forms_from_doc doc.1
  let predicted_forms_filtered := filterDesired predicted_forms
  let file_metrics := calculate_metrics_for_file predicted_forms_filtered doc.2
  (acc.1 + file_metrics.1, acc.2.1 + file_metrics.2.1, acc.2.2 + file_metrics.2.2)

/-- The corpus totals `(total_tp, total_fp, total_fn)` accumulated over the
documents. -/
def corpusTotals (docs : List CorpusDoc) : Nat × Nat × Nat :=
  docs.foldl addDocMetrics (0, 0, 0)

/-- `evaluate_parser_accuracy` of the source, as a function of the already
paired corpus (a document with no matching ground-truth file is skipped by
the source before this point). Returns the exact integer totals and the
reported `(precision, recall, f1_score)`, each rounded to four decimal
places. -/
def evaluate_parser_accuracy (docs : List CorpusDoc) :
    (Nat × Nat × Nat) × (ℚ × ℚ × ℚ) :=
  let totals := corpusTotals docs
  let precision : ℚ :=
    if 0 < totals.1 + totals.2.1 then
      (totals.1 : ℚ) / ((totals.1 : ℚ) + (totals.2.1 : ℚ)) else 0
  let recallScore : ℚ :=
    if 0 < totals.1 + totals.2.2 then
      (totals.1 : ℚ) / ((totals.1 : ℚ) + (totals.2.2 : ℚ)) else 0
  let f1_score : ℚ :=
    if 0 < precision + recallScore then
      2 * (precision * recallScore) / (precision + recallScore) else 0
  (totals, (round4 precision, round4 recallScore, round4 f1_score))

/-- `main` of `parse_tax_forms.py`, single-document mode (the name `main` is
reserved in Lean): when the parser identifies nothing at all, a notice is
printed and `None` is returned (rendered as JSON `null`); otherwise the
identified forms filtered to the desired types are returned (possibly the
empty list). -/
def parse_main (doc : Option (List (Option String))) : Option (List FormRecord) :=
  let all_identified_forms := find_tax_forms_from_doc doc
  if all_identified_forms = [] then none
  else some (filterDesired all_identified_forms)

/-! ### The spec's scoring formulas, for comparison with the source -/

/-- The spec's precision formula: `tp/(tp+fp)`, `0.0` if the denominator
is `0`. -/
def spec_precision (tp fp : Nat) : ℚ :=
  if tp + fp = 0 then 0 else (tp : ℚ) / ((tp + fp : Nat) : ℚ)

/-- The spec's recall formula: `tp/(tp+fn)`, `0.0` if the denominator
is `0`. -/
def spec_recall (tp fn : Nat) : ℚ :=
  if tp + fn = 0 then 0 else (tp : ℚ) / ((tp + fn : Nat) : ℚ)

/-- The spec's F1 formula: `2·p·r/(p+r)`, `0.0` if the denominator is `0`. -/
def spec_f1 (p r : ℚ) : ℚ :=
  if p + r = 0 then 0 else 2 * (p * r) / (p + r)

/-! ### Lemmas about the registry scan -/

lemma scanPatterns_eq_none_iff (l : List (List RTok × String)) (text : String) :
    scanPatterns l text = none ↔ ∀ pr ∈ l, regexSearch pr.1 text = false := by
  induction l with
  | nil => simp [scanPatterns]
  | cons hd tl ih =>
    obtain ⟨p, dt⟩ := hd
    by_cases h : regexSearch p text
    · simp [scanPatterns, h]
    · rw [Bool.not_eq_true] at h
      simp [scanPatterns, h, ih]

lemma scanPatterns_first (l : List (List RTok × String)) (text : String) :
    ∀ i (hi : i < l.length),
      regexSearch (l.get ⟨i, hi⟩).1 text = true →
      (∀ k (hk : k < i), regexSearch (l.get ⟨k, Nat.lt_trans hk hi⟩).1 text = false) →
      scanPatterns l text = some (l.get ⟨i, hi⟩).2 := by
  induction l with
  | nil => intro i hi; exact absurd hi (Nat.not_lt_zero i)
  | cons hd tl ih =>
    intro i hi hmatch hbefore
    obtain ⟨p, dt⟩ := hd
    cases i with
    | zero =>
      have hm : regexSearch p text = true := hmatch
      show scanPatterns ((p, dt) :: tl) text = some dt
      simp [scanPatterns, hm]
    | succ n =>
      have h0 : regexSearch p text = false := hbefore 0 (Nat.succ_pos n)
      have hm : regexSearch ((tl.get ⟨n, Nat.lt_of_succ_lt_succ hi⟩).1) text = true :=
        hmatch
      show scanPatterns ((p, dt) :: tl) text
        = some ((tl.get ⟨n, Nat.lt_of_succ_lt_succ hi⟩).2)
      simp only [scanPatterns, h0, Bool.false_eq_true, if_false]
      exact ih n (Nat.lt_of_succ_lt_succ hi) hm
        (fun k hk => hbefore (k + 1) (Nat.succ_lt_succ hk))

/-- C1: `identify_form_on_page` scans the registry in its fixed insertion
order and returns the label of the first pattern whose regex matches the
page-region text; `none` is returned exactly when no registered pattern
matches, and when a pattern at position `i` matches while every earlier
pattern fails, the label returned is that of position `i` (so of two
matching patterns the earlier one in registry order wins). -/
theorem identify_form_first_match_wins (text : String) :
    (identify_form_on_page text = none ↔
      ∀ pr ∈ ALL_FORM_PATTERNS, regexSearch pr.1 text = false)
    ∧ ∀ i (hi : i < ALL_FORM_PATTERNS.length),
        regexSearch (ALL_FORM_PATTERNS.get ⟨i, hi⟩).1 text = true →
        (∀ k (hk : k < i),
          regexSearch (ALL_FORM_PATTERNS.get ⟨k, Nat.lt_trans hk hi⟩).1 text = false) →
        identify_form_on_page text = some (ALL_FORM_PATTERNS.get ⟨i, hi⟩).2 := by
  constructor
  · exact scanPatterns_eq_none_iff ALL_FORM_PATTERNS text
  · exact scanPatterns_first ALL_FORM_PATTERNS text

/-! ### Lemmas about the scorer's canonical tuples -/

lemma recordKey_injective : Function.Injective recordKey := by
  rintro ⟨a1, a2, a3⟩ ⟨b1, b2, b3⟩ h
  simp only [recordKey, Prod.mk.injEq] at h
  simp only [FormRecord.mk.injEq]
  exact ⟨h.1, h.2.2, h.2.1⟩

lemma toFinset_map_key (l : List FormRecord) :
    (l.map recordKey).toFinset = l.toFinset.image recordKey := by
  ext x
  simp

/-- C2: `calculate_metrics_for_file` returns `tp = |predicted ∩ truth|`,
`fp = |predicted − truth|`, `fn = |truth − predicted|` under exact
structural equality of records; duplicate identical records collapse and
count once, and a record differing in any field gives one fp and one fn
with no partial credit. -/
theorem calculate_metrics_exact_set_semantics (predicted truth : List FormRecord) :
    (calculate_metrics_for_file predicted truth).1
        = (predicted.toFinset ∩ truth.toFinset).card
    ∧ (calculate_metrics_for_file predicted truth).2.1
        = (predicted.toFinset \ truth.toFinset).card
    ∧ (calculate_metrics_for_file predicted truth).2.2
        = (truth.toFinset \ predicted.toFinset).card
    ∧ (∀ r : FormRecord, calculate_metrics_for_file [r, r] [r] = (1, 0, 0))
    ∧ (∀ r s : FormRecord, r ≠ s → calculate_metrics_for_file [r] [s] = (0, 1, 1)) := by
  refine ⟨?_, ?_, ?_, ?_, ?_⟩
  · simp only [calculate_metrics_for_file, toFinset_map_key,
      ← Finset.image_inter _ _ recordKey_injective,
      Finset.card_image_of_injective _ recordKey_injective]
  · simp only [calculate_metrics_for_file, toFinset_map_key,
      ← Finset.image_sdiff _ _ recordKey_injective,
      Finset.card_image_of_injective _ recordKey_injective]
  · simp only [calculate_metrics_for_file, toFinset_map_key,
      ← Finset.image_sdiff _ _ recordKey_injective,
      Finset.card_image_of_injective _ recordKey_injective]
  · intro r
    simp [calculate_metrics_for_file]
  · intro r s hrs
    have hk : recordKey r ≠ recordKey s := fun h => hrs (recordKey_injective h)
    have h1 : recordKey r ∉ ({recordKey s} : Finset (String × Int × Int)) := by
      simp [hk]
    have h2 : recordKey s ∉ ({recordKey r} : Finset (String × Int × Int)) := by
      simp [Ne.symm hk]
    simp [calculate_metrics_for_file, Finset.sdiff_singleton_eq_erase,
      Finset.erase_eq_of_not_mem h1, Finset.erase_eq_of_not_mem h2,
      Finset.singleton_inter_of_not_mem h1]

/-! ### The segment builder's boundary behavior -/

/-- C3: a page whose label is `None` leaves the loop state unchanged while a
segment is open (it neither closes nor splits nor extends-by-boundary the
segment), so the label stream `[A, A, None, A]` over pages 1 to 4 yields the
single segment `{A, 1, 4}`. -/
theorem none_page_gap_tolerance :
    (∀ (dt : String) (sp p : Int) (rest : List (Option String)),
      scanPages (none :: rest) p (some (dt, sp))
        = scanPages rest (p + 1) (some (dt, sp)))
    ∧ ∀ a : String,
        find_tax_forms_in_pdf [some a, some a, none, some a] = [⟨a, 1, 4⟩] := by
  constructor
  · intro dt sp p rest
    rfl
  · intro a
    simp [find_tax_forms_in_pdf, scanPages]

/-- C4: a page at 1-based position `p` carrying a label different from the
open segment's label closes that segment with `end_page = p - 1`, emits it,
and opens a new segment at `start_page = p`; a document ending with an open
segment closes it at the last page number; and the label stream
`[A, A, B, B]` yields exactly the segments `{A,1,2}` and `{B,3,4}`. -/
theorem boundary_split_and_final_close :
    (∀ (a b dt : String) (sp p : Int) (rest : List (Option String)),
      b ≠ a → dt = a →
      scanPages (some b :: rest) p (some (a, sp))
        = (⟨dt, sp, p - 1⟩ :: (scanPages rest (p + 1) (some (b, p))).1,
           (scanPages rest (p + 1) (some (b, p))).2))
    ∧ (∀ (labels : List (Option String)) (dt : String) (sp : Int),
        (scanPages labels 1 none).2 = some (dt, sp) →
        find_tax_forms_in_pdf labels
          = (scanPages labels 1 none).1 ++ [⟨dt, sp, (labels.length : Int)⟩])
    ∧ ∀ a b : String, a ≠ b →
        find_tax_forms_in_pdf [some a, some a, some b, some b]
          = [⟨a, 1, 2⟩, ⟨b, 3, 4⟩] := by
  refine ⟨?_, ?_, ?_⟩
  · intro a b dt sp p rest hne hdt
    subst hdt
    simp [scanPages, hne]
  · intro labels dt sp h
    simp only [find_tax_forms_in_pdf, h]
  · intro a b hab
    have hba : b ≠ a := Ne.symm hab
    simp [find_tax_forms_in_pdf, scanPages, hba]

/-! ### The segment builder's global invariants -/

/-- The emitted segment list is a chain: starting at or after `lo`, each
segment has `start_page ≤ end_page` and the next segment starts strictly
after the previous one ends. -/
def ValidFrom : Int → List FormRecord → Prop
  | _, [] => True
  | lo, s :: rest =>
      lo ≤ s.start_page ∧ s.start_page ≤ s.end_page ∧
        ValidFrom (s.end_page + 1) rest

@[simp] lemma validFrom_nil (lo : Int) : ValidFrom lo [] ↔ True :=
  Iff.rfl

@[simp] lemma validFrom_cons (lo : Int) (s : FormRecord) (rest : List FormRecord) :
    ValidFrom lo (s :: rest) ↔
      lo ≤ s.start_page ∧ s.start_page ≤ s.end_page ∧
        ValidFrom (s.end_page + 1) rest :=
  Iff.rfl

lemma validFrom_mono {lo lo' : Int} (h : lo ≤ lo') :
    ∀ out : List FormRecord, ValidFrom lo' out → ValidFrom lo out := by
  intro out hv
  cases out with
  | nil => trivial
  | cons s rest =>
    obtain ⟨h1, h2, h3⟩ := (validFrom_cons lo' s rest).mp hv
    exact (validFrom_cons lo s rest).mpr ⟨le_trans h h1, h2, h3⟩

/-- The lower bound below which the loop can no longer emit anything: the
next page when no segment is open, the open segment's start page otherwise. -/
def startLo : Option (String × Int) → Int → Int
  | none, p => p
  | some (_, sp), _ => sp

/-- The loop invariant of `find_tax_forms_in_pdf`: if every open segment
started strictly before the next page, the emitted segments form a valid
chain from `startLo`, and a segment still open at the end started inside
the processed pages and after every emitted segment's end. -/
lemma scanPages_invariant :
    ∀ (labels : List (Option String)) (p : Int) (cur : Option (String × Int)),
      (∀ dt sp, cur = some (dt, sp) → sp < p) →
      ValidFrom (startLo cur p) (scanPages labels p cur).1
      ∧ (∀ dt sp, (scanPages labels p cur).2 = some (dt, sp) →
          startLo cur p ≤ sp ∧ sp < p + labels.length
          ∧ ∀ s ∈ (scanPages labels p cur).1, s.end_page < sp) := by
  intro labels
  induction labels with
  | nil =>
    intro p cur hwf
    refine ⟨by simp [scanPages], ?_⟩
    intro dt sp h
    simp only [scanPages] at h
    subst h
    refine ⟨le_refl _, ?_, by simp [scanPages]⟩
    have := hwf dt sp rfl
    simpa using this
  | cons l rest ih =>
    intro p cur hwf
    cases l with
    | none =>
      have hwf' : ∀ dt sp, cur = some (dt, sp) → sp < p + 1 :=
        fun dt sp h => lt_trans (hwf dt sp h) (by omega)
      obtain ⟨hv, hf⟩ := ih (p + 1) cur hwf'
      have hlo : startLo cur p ≤ startLo cur (p + 1) := by
        cases cur with
        | none => simp [startLo]
        | some x => obtain ⟨a, b⟩ := x; simp [startLo]
      refine ⟨?_, ?_⟩
      · simpa only [scanPages] using validFrom_mono hlo _ hv
      · intro dt sp h
        simp only [scanPages] at h ⊢
        obtain ⟨h1, h2, h3⟩ := hf dt sp h
        refine ⟨le_trans hlo h1, ?_, h3⟩
        simp only [List.length_cons]
        push_cast
        omega
    | some ft =>
      cases cur with
      | none =>
        have hwf' : ∀ dt sp, (some (ft, p) : Option (String × Int)) = some (dt, sp) →
            sp < p + 1 := by
          intro dt sp h
          rw [Option.some.injEq, Prod.mk.injEq] at h
          omega
        obtain ⟨hv, hf⟩ := ih (p + 1) (some (ft, p)) hwf'
        refine ⟨?_, ?_⟩
        · simpa only [scanPages] using hv
        · intro dt sp h
          simp only [scanPages] at h ⊢
          obtain ⟨h1, h2, h3⟩ := hf dt sp h
          have h1' : p ≤ sp := h1
          refine ⟨h1', ?_, h3⟩
          simp only [List.length_cons]
          push_cast
          omega
      | some x =>
        obtain ⟨dt0, sp0⟩ := x
        have hsp0 : sp0 < p := hwf dt0 sp0 rfl
        by_cases hft : ft = dt0
        · subst hft
          have hwf' : ∀ dt sp,
              (some (ft, sp0) : Option (String × Int)) = some (dt, sp) →
              sp < p + 1 := by
            intro dt sp h
            rw [Option.some.injEq, Prod.mk.injEq] at h
            omega
          obtain ⟨hv, hf⟩ := ih (p + 1) (some (ft, sp0)) hwf'
          refine ⟨?_, ?_⟩
          · simpa only [scanPages, if_pos rfl] using hv
          · intro dt sp h
            simp only [scanPages, if_pos rfl] at h ⊢
            obtain ⟨h1, h2, h3⟩ := hf dt sp h
            have h1' : sp0 ≤ sp := h1
            refine ⟨h1', ?_, h3⟩
            simp only [List.length_cons]
            push_cast
            omega
        · have hwf' : ∀ dt sp,
              (some (ft, p) : Option (String × Int)) = some (dt, sp) →
              sp < p + 1 := by
            intro dt sp h
            rw [Option.some.injEq, Prod.mk.injEq] at h
            omega
          obtain ⟨hv, hf⟩ := ih (p + 1) (some (ft, p)) hwf'
          have hv' : ValidFrom p (scanPages rest (p + 1) (some (ft, p))).1 := hv
          refine ⟨?_, ?_⟩
          · simp only [scanPages, if_neg hft, validFrom_cons, startLo]
            refine ⟨le_refl _, by omega, ?_⟩
            exact validFrom_mono (by omega) _ hv'
          · intro dt sp h
            simp only [scanPages, if_neg hft] at h ⊢
            obtain ⟨h1, h2, h3⟩ := hf dt sp h
            have h1' : p ≤ sp := h1
            refine ⟨by simp only [startLo]; omega, ?_, ?_⟩
            · simp only [List.length_cons]
              push_cast
              omega
            · intro s hs
              rcases List.mem_cons.mp hs with rfl | hs'
              · simp only []
                omega
              · exact h3 s hs'

lemma validFrom_append_close (x : FormRecord) :
    ∀ (out : List FormRecord) (lo : Int),
      ValidFrom lo out → lo ≤ x.start_page → x.start_page ≤ x.end_page →
      (∀ s ∈ out, s.end_page < x.start_page) →
      ValidFrom lo (out ++ [x]) := by
  intro out
  induction out with
  | nil =>
    intro lo _ h1 h2 _
    exact (validFrom_cons lo x []).mpr ⟨h1, h2, trivial⟩
  | cons s rest ih =>
    intro lo hv h1 h2 hall
    obtain ⟨hlo, hse, hrest⟩ := (validFrom_cons lo s rest).mp hv
    refine (validFrom_cons lo s (rest ++ [x])).mpr ⟨hlo, hse, ?_⟩
    refine ih _ hrest ?_ h2 ?_
    · have := hall s (by simp)
      omega
    · intro t ht
      exact hall t (by simp [ht])

lemma validFrom_props :
    ∀ (out : List FormRecord) (lo : Int), ValidFrom lo out →
      (∀ s ∈ out, lo ≤ s.start_page ∧ s.start_page ≤ s.end_page)
      ∧ List.Pairwise (fun s t => s.end_page < t.start_page) out
      ∧ List.Pairwise (fun s t => s.start_page < t.start_page) out := by
  intro out
  induction out with
  | nil => intro lo _; simp
  | cons s rest ih =>
    intro lo hv
    obtain ⟨hlo, hse, hrest⟩ := (validFrom_cons lo s rest).mp hv
    obtain ⟨hmem, hp1, hp2⟩ := ih _ hrest
    refine ⟨?_, ?_, ?_⟩
    · intro t ht
      rcases List.mem_cons.mp ht with rfl | ht'
      · exact ⟨hlo, hse⟩
      · obtain ⟨h1, h2⟩ := hmem t ht'
        exact ⟨by omega, h2⟩
    · refine List.Pairwise.cons ?_ hp1
      intro t ht
      have := (hmem t ht).1
      omega
    · refine List.Pairwise.cons ?_ hp2
      intro t ht
      have := (hmem t ht).1
      omega

lemma find_tax_forms_valid (labels : List (Option String)) :
    ValidFrom 1 (find_tax_forms_in_pdf labels) := by
  have hwf : ∀ dt sp, (none : Option (String × Int)) = some (dt, sp) → sp < 1 := by
    intro dt sp h
    exact absurd h (by simp)
  obtain ⟨hv, hf⟩ := scanPages_invariant labels 1 none hwf
  have hv1 : ValidFrom 1 (scanPages labels 1 none).1 := hv
  rcases h2 : (scanPages labels 1 none).2 with _ | ⟨dt, sp⟩
  · simpa [find_tax_forms_in_pdf, h2] using hv1
  · obtain ⟨h1, hb, hall⟩ := hf dt sp h2
    have h1' : (1 : Int) ≤ sp := h1
    have hb' : sp < 1 + (labels.length : Int) := hb
    simp only [find_tax_forms_in_pdf, h2]
    exact validFrom_append_close _ _ _ hv1 h1'
      (show sp ≤ (labels.length : Int) by omega) hall

/-- C5: for every label stream over pages 1, 2, ... every segment emitted by
`find_tax_forms_in_pdf` has `start_page ≤ end_page`, the segments are emitted
in ascending order of `start_page`, and each segment ends strictly before the
next one starts, so no two emitted segments share a page. -/
theorem segments_ordered_and_disjoint (labels : List (Option String)) :
    (∀ s ∈ find_tax_forms_in_pdf labels, s.start_page ≤ s.end_page)
    ∧ List.Pairwise (fun s t => s.start_page < t.start_page)
        (find_tax_forms_in_pdf labels)
    ∧ List.Pairwise (fun s t => s.end_page < t.start_page)
        (find_tax_forms_in_pdf labels) := by
  obtain ⟨hmem, hp1, hp2⟩ := validFrom_props _ 1 (find_tax_forms_valid labels)
  exact ⟨fun s hs => (hmem s hs).2, hp2, hp1⟩

/-! ### Corpus aggregation lemmas -/

lemma foldl_addDocMetrics_shift :
    ∀ (docs : List CorpusDoc) (a : Nat × Nat × Nat),
      docs.foldl addDocMetrics a
        = (a.1 + (corpusTotals docs).1,
           a.2.1 + (corpusTotals docs).2.1,
           a.2.2 + (corpusTotals docs).2.2) := by
  intro docs
  induction docs with
  | nil => intro a; simp [corpusTotals]
  | cons d ds ih =>
    intro a
    simp only [corpusTotals, List.foldl_cons] at ih ⊢
    rw [ih (addDocMetrics a d), ih (addDocMetrics (0, 0, 0) d)]
    simp only [addDocMetrics, Prod.mk.injEq]
    omega

lemma corpusTotals_cons (d : CorpusDoc) (ds : List CorpusDoc) :
    corpusTotals (d :: ds)
      = ((addDocMetrics (0, 0, 0) d).1 + (corpusTotals ds).1,
         (addDocMetrics (0, 0, 0) d).2.1 + (corpusTotals ds).2.1,
         (addDocMetrics (0, 0, 0) d).2.2 + (corpusTotals ds).2.2) := by
  show (d :: ds).foldl addDocMetrics (0, 0, 0) = _
  rw [List.foldl_cons, foldl_addDocMetrics_shift]

lemma corpusTotals_perm {docs1 docs2 : List CorpusDoc} (h : docs1.Perm docs2) :
    corpusTotals docs1 = corpusTotals docs2 := by
  induction h with
  | nil => rfl
  | cons x h ih => rw [corpusTotals_cons, corpusTotals_cons, ih]
  | swap x y l =>
    rw [corpusTotals_cons, corpusTotals_cons, corpusTotals_cons, corpusTotals_cons]
    simp only [Prod.mk.injEq]
    omega
  | trans h1 h2 ih1 ih2 => exact ih1.trans ih2

/-- C8: corpus aggregation is a pure, order-independent summation: a
permutation of the documents leaves the corpus totals, and the precision,
recall and F1 derived from them, unchanged. -/
theorem aggregation_order_independent (docs1 docs2 : List CorpusDoc)
    (h : docs1.Perm docs2) :
    evaluate_parser_accuracy docs1 = evaluate_parser_accuracy docs2 := by
  have ht := corpusTotals_perm h
  simp only [evaluate_parser_accuracy, ht]

/-- A concrete instance of `aggregation_order_independent`: swapping the two
documents of a corpus does not change the evaluation result. -/
theorem aggregation_order_independent_witness :
    evaluate_parser_accuracy
        [(none, [⟨"f1040sc", 1, 2⟩]), (some [some "1040f"], [])]
      = evaluate_parser_accuracy
        [(some [some "1040f"], []), (none, [⟨"f1040sc", 1, 2⟩])] :=
  aggregation_order_independent _ _ (List.Perm.swap _ _ _)

/-! ### What a failed document contributes -/

lemma addDocMetrics_none (acc : Nat × Nat × Nat) (truth : List FormRecord) :
    addDocMetrics acc (none, truth)
      = (acc.1, acc.2.1, acc.2.2 + truth.toFinset.card) := by
  simp only [addDocMetrics, find_tax_forms_from_doc, filterDesired,
    List.filter_nil, calculate_metrics_for_file, List.map_nil,
    List.toFinset_nil, Finset.empty_inter, Finset.empty_sdiff,
    Finset.sdiff_empty, Finset.card_empty, Nat.add_zero]
  rw [toFinset_map_key, Finset.card_image_of_injective _ recordKey_injective]

/-- C9-counterexample: a document that cannot be opened yields the empty
prediction list, and in corpus mode it is still scored against its ground
truth: with one ground-truth segment it contributes one false negative, not
zero, to the aggregated counts. -/
theorem failed_document_counterexample :
    find_tax_forms_from_doc none = []
    ∧ (evaluate_parser_accuracy [(none, [⟨"f1040sc", 1, 2⟩])]).1 = (0, 0, 1) := by
  constructor
  · rfl
  · rfl

/-- C9 (amended): an unopenable document is recovered at the document
boundary — `find_tax_forms_in_pdf` returns the empty list instead of
raising — and in corpus mode such a document contributes zero tp and zero
fp, but contributes fn equal to the number of distinct ground-truth
segments of that document. -/
theorem failed_document_contribution (truth : List FormRecord)
    (docs : List CorpusDoc) :
    find_tax_forms_from_doc none = []
    ∧ (evaluate_parser_accuracy ((none, truth) :: docs)).1
        = ((evaluate_parser_accuracy docs).1.1,
           (evaluate_parser_accuracy docs).1.2.1,
           (evaluate_parser_accuracy docs).1.2.2 + truth.toFinset.card) := by
  constructor
  · rfl
  · have h1 : (evaluate_parser_accuracy ((none, truth) :: docs)).1
        = corpusTotals ((none, truth) :: docs) := rfl
    have h2 : (evaluate_parser_accuracy docs).1 = corpusTotals docs := rfl
    rw [h1, h2, corpusTotals_cons, addDocMetrics_none]
    simp only [Prod.mk.injEq]
    omega

/-! ### Allow-list filtering -/

/-- C6-counterexample: `evaluate_parser_accuracy` filters only the predicted
side by the allow-list. Here the parser correctly finds the one `f8879`
segment (a type outside the allow-list) that also appears in the ground
truth; the claim says the pair contributes nothing, but the code drops only
the prediction and counts the ground-truth copy as one false negative. -/
theorem allowlist_truth_not_filtered_counterexample :
    ("f8879" ∈ desired_forms) = False
    ∧ find_tax_forms_from_doc (some [some "f8879", some "f8879"])
        = [⟨"f8879", 1, 2⟩]
    ∧ (evaluate_parser_accuracy
        [(some [some "f8879", some "f8879"], [⟨"f8879", 1, 2⟩])]).1
        = (0, 0, 1) := by
  refine ⟨by decide, by rfl, by rfl⟩

lemma not_mem_filterDesired_key (predicted : List FormRecord) (r : FormRecord)
    (hr : r.document_type ∉ desired_forms) :
    recordKey r ∉ ((filterDesired predicted).map recordKey).toFinset := by
  intro hmem
  rw [List.mem_toFinset, List.mem_map] at hmem
  obtain ⟨q, hq, hkey⟩ := hmem
  have hqr : q = r := recordKey_injective hkey
  subst hqr
  rw [filterDesired, List.mem_filter] at hq
  exact hr (by simpa using hq.2)

/-- C6 (amended): only predicted segments are filtered by the allow-list
before scoring; ground-truth segments are not. A predicted segment whose
document type is outside the allow-list contributes nothing to tp, fp or fn,
but a new ground-truth segment outside the allow-list leaves tp and fp
unchanged and adds one false negative. -/
theorem allowlist_filters_predictions_only (predicted truth : List FormRecord)
    (r : FormRecord) (hr : r.document_type ∉ desired_forms) (hmem : r ∉ truth) :
    calculate_metrics_for_file (filterDesired (r :: predicted)) truth
      = calculate_metrics_for_file (filterDesired predicted) truth
    ∧ (calculate_metrics_for_file (filterDesired predicted) (r :: truth)).1
        = (calculate_metrics_for_file (filterDesired predicted) truth).1
    ∧ (calculate_metrics_for_file (filterDesired predicted) (r :: truth)).2.1
        = (calculate_metrics_for_file (filterDesired predicted) truth).2.1
    ∧ (calculate_metrics_for_file (filterDesired predicted) (r :: truth)).2.2
        = (calculate_metrics_for_file (filterDesired predicted) truth).2.2 + 1 := by
  have hfilter : filterDesired (r :: predicted) = filterDesired predicted := by
    rw [filterDesired, filterDesired, List.filter_cons]
    simp [hr]
  have hkP : recordKey r ∉ ((filterDesired predicted).map recordKey).toFinset :=
    not_mem_filterDesired_key predicted r hr
  have hkT : recordKey r ∉ (truth.map recordKey).toFinset := by
    intro hmem'
    rw [List.mem_toFinset, List.mem_map] at hmem'
    obtain ⟨q, hq, hkey⟩ := hmem'
    have hqr : q = r := recordKey_injective hkey
    subst hqr
    exact hmem hq
  have hnew : ((r :: truth).map recordKey).toFinset
      = insert (recordKey r) (truth.map recordKey).toFinset := by
    simp
  have htp : ((filterDesired predicted).map recordKey).toFinset
        ∩ insert (recordKey r) (truth.map recordKey).toFinset
      = ((filterDesired predicted).map recordKey).toFinset
        ∩ (truth.map recordKey).toFinset := by
    ext x
    simp only [Finset.mem_inter, Finset.mem_insert]
    constructor
    · rintro ⟨hP, rfl | hT⟩
      · exact absurd hP hkP
      · exact ⟨hP, hT⟩
    · rintro ⟨hP, hT⟩
      exact ⟨hP, Or.inr hT⟩
  have hfp : ((filterDesired predicted).map recordKey).toFinset
        \ insert (recordKey r) (truth.map recordKey).toFinset
      = ((filterDesired predicted).map recordKey).toFinset
        \ (truth.map recordKey).toFinset := by
    ext x
    simp only [Finset.mem_sdiff, Finset.mem_insert, not_or]
    constructor
    · rintro ⟨hP, -, hT⟩
      exact ⟨hP, hT⟩
    · rintro ⟨hP, hT⟩
      refine ⟨hP, ?_, hT⟩
      rintro rfl
      exact hkP hP
  have hfn : insert (recordKey r) (truth.map recordKey).toFinset
        \ ((filterDesired predicted).map recordKey).toFinset
      = insert (recordKey r)
          ((truth.map recordKey).toFinset
            \ ((filterDesired predicted).map recordKey).toFinset) := by
    ext x
    simp only [Finset.mem_sdiff, Finset.mem_insert]
    constructor
    · rintro ⟨rfl | hT, hP⟩
      · exact Or.inl rfl
      · exact Or.inr ⟨hT, hP⟩
    · rintro (rfl | ⟨hT, hP⟩)
      · exact ⟨Or.inl rfl, hkP⟩
      · exact ⟨Or.inr hT, hP⟩
  have hkTP : recordKey r ∉
      (truth.map recordKey).toFinset
        \ ((filterDesired predicted).map recordKey).toFinset := by
    intro hx
    exact hkT (Finset.mem_sdiff.mp hx).1
  refine ⟨by rw [hfilter], ?_, ?_, ?_⟩
  · simp only [calculate_metrics_for_file, hnew, htp]
  · simp only [calculate_metrics_for_file, hnew, hfp]
  · simp only [calculate_metrics_for_file, hnew, hfn]
    rw [Finset.card_insert_of_not_mem hkTP]

/-- A concrete instance of `allowlist_filters_predictions_only`, at the
out-of-allow-list record `{f8879, 1, 2}` with empty prediction and truth
lists. -/
theorem allowlist_filters_predictions_only_witness :
    calculate_metrics_for_file (filterDesired [⟨"f8879", 1, 2⟩]) []
      = calculate_metrics_for_file (filterDesired []) []
    ∧ (calculate_metrics_for_file (filterDesired []) [⟨"f8879", 1, 2⟩]).1
        = (calculate_metrics_for_file (filterDesired []) []).1
    ∧ (calculate_metrics_for_file (filterDesired []) [⟨"f8879", 1, 2⟩]).2.1
        = (calculate_metrics_for_file (filterDesired []) []).2.1
    ∧ (calculate_metrics_for_file (filterDesired []) [⟨"f8879", 1, 2⟩]).2.2
        = (calculate_metrics_for_file (filterDesired []) []).2.2 + 1 :=
  allowlist_filters_predictions_only [] [] ⟨"f8879", 1, 2⟩ (by decide) (by decide)

/-! ### Rounding and the reported metrics -/

lemma roundHalfEven_abs (q : ℚ) : |(roundHalfEven q : ℚ) - q| ≤ 1 / 2 := by
  have h1 : ((⌊q⌋ : ℤ) : ℚ) ≤ q := Int.floor_le q
  have h2 : q < (⌊q⌋ : ℚ) + 1 := Int.lt_floor_add_one q
  unfold roundHalfEven
  split_ifs with hlt hgt heven
  · rw [abs_le]
    constructor <;> linarith
  · push_cast
    rw [abs_le]
    constructor <;> linarith
  · have heq : q - (⌊q⌋ : ℚ) = 1 / 2 := le_antisymm (not_lt.mp hgt) (not_lt.mp hlt)
    rw [abs_le]
    constructor <;> linarith
  · have heq : q - (⌊q⌋ : ℚ) = 1 / 2 := le_antisymm (not_lt.mp hgt) (not_lt.mp hlt)
    push_cast
    rw [abs_le]
    constructor <;> linarith

lemma round4_abs (q : ℚ) : |round4 q - q| ≤ 1 / 20000 := by
  have h := roundHalfEven_abs (q * 10000)
  unfold round4
  have heq : (roundHalfEven (q * 10000) : ℚ) / 10000 - q
      = ((roundHalfEven (q * 10000) : ℚ) - q * 10000) / 10000 := by
    ring
  rw [heq, abs_div]
  have h10 : |(10000 : ℚ)| = 10000 := by norm_num
  rw [h10]
  rw [div_le_div_iff₀ (by norm_num) (by norm_num)]
  nlinarith [h]

lemma round4_zero : round4 0 = 0 := by
  unfold round4 roundHalfEven
  norm_num

lemma spec_precision_nonneg (tp fp : Nat) : 0 ≤ spec_precision tp fp := by
  unfold spec_precision
  split_ifs
  · exact le_refl 0
  · positivity

lemma spec_recall_nonneg (tp fn : Nat) : 0 ≤ spec_recall tp fn := by
  unfold spec_recall
  split_ifs
  · exact le_refl 0
  · positivity

lemma code_precision_eq (tp fp : Nat) :
    (if 0 < tp + fp then (tp : ℚ) / ((tp : ℚ) + (fp : ℚ)) else 0)
      = spec_precision tp fp := by
  unfold spec_precision
  rcases Nat.eq_zero_or_pos (tp + fp) with h | h
  · simp [h]
  · rw [if_pos h, if_neg (by omega)]
    push_cast
    rfl

lemma code_recall_eq (tp fn : Nat) :
    (if 0 < tp + fn then (tp : ℚ) / ((tp : ℚ) + (fn : ℚ)) else 0)
      = spec_recall tp fn := by
  unfold spec_recall
  rcases Nat.eq_zero_or_pos (tp + fn) with h | h
  · simp [h]
  · rw [if_pos h, if_neg (by omega)]
    push_cast
    rfl

lemma code_f1_eq (p r : ℚ) (hp : 0 ≤ p) (hr : 0 ≤ r) :
    (if 0 < p + r then 2 * (p * r) / (p + r) else 0) = spec_f1 p r := by
  unfold spec_f1
  rcases eq_or_lt_of_le (add_nonneg hp hr) with h | h
  · rw [if_neg (by rw [← h]; exact lt_irrefl 0), if_pos h.symm]
  · rw [if_pos h, if_neg ?_]
    intro hc
    rw [hc] at h
    exact lt_irrefl 0 h

lemma evaluate_parser_accuracy_eq (docs : List CorpusDoc) :
    evaluate_parser_accuracy docs
      = (corpusTotals docs,
         (round4 (spec_precision (corpusTotals docs).1 (corpusTotals docs).2.1),
          round4 (spec_recall (corpusTotals docs).1 (corpusTotals docs).2.2),
          round4 (spec_f1
            (spec_precision (corpusTotals docs).1 (corpusTotals docs).2.1)
            (spec_recall (corpusTotals docs).1 (corpusTotals docs).2.2)))) := by
  simp only [evaluate_parser_accuracy]
  rw [code_precision_eq, code_recall_eq,
    code_f1_eq _ _ (spec_precision_nonneg _ _) (spec_recall_nonneg _ _)]

/-- C7: the corpus report consists of the exact integer totals summed over
the documents, together with precision, recall and F1 computed by the spec's
zero-guarded quotient formulas and rounded to four decimal places: every
reported score is within `1/20000` of an integer multiple of `1/10000`, and
all-zero totals report `precision = recall = f1 = 0`, never an undefined
value. -/
theorem metrics_guards_and_rounding (docs : List CorpusDoc) :
    (evaluate_parser_accuracy docs).1 = corpusTotals docs
    ∧ (evaluate_parser_accuracy docs).2.1
        = round4 (spec_precision (corpusTotals docs).1 (corpusTotals docs).2.1)
    ∧ (evaluate_parser_accuracy docs).2.2.1
        = round4 (spec_recall (corpusTotals docs).1 (corpusTotals docs).2.2)
    ∧ (evaluate_parser_accuracy docs).2.2.2
        = round4 (spec_f1
            (spec_precision (corpusTotals docs).1 (corpusTotals docs).2.1)
            (spec_recall (corpusTotals docs).1 (corpusTotals docs).2.2))
    ∧ (corpusTotals docs = (0, 0, 0) →
        (evaluate_parser_accuracy docs).2 = (0, 0, 0))
    ∧ ∀ q : ℚ, |round4 q - q| ≤ 1 / 20000 ∧ ∃ k : ℤ, round4 q = (k : ℚ) / 10000 := by
  have hmaster := evaluate_parser_accuracy_eq docs
  refine ⟨by rw [hmaster], by rw [hmaster], by rw [hmaster], by rw [hmaster],
    ?_, ?_⟩
  · intro h0
    rw [hmaster, h0]
    simp only [spec_precision, spec_recall, spec_f1]
    norm_num [round4_zero]
  · intro q
    exact ⟨round4_abs q, ⟨roundHalfEven (q * 10000), rfl⟩⟩

/-! ### Single-document mode -/

/-- C10: in single-document mode `main` returns `None` exactly when the
parser identifies no forms at all (which covers both an unreadable document
and a readable document with no recognized pages, so those two cases are
indistinguishable to the caller), and returns the empty list exactly when
forms were identified but every one was removed by the desired-type filter
(as for a document whose only form is the undesired `f8879`). -/
theorem main_null_vs_empty_list :
    (∀ d, parse_main d = none ↔ find_tax_forms_from_doc d = [])
    ∧ (∀ d, parse_main d = some []
        ↔ find_tax_forms_from_doc d ≠ []
          ∧ filterDesired (find_tax_forms_from_doc d) = [])
    ∧ parse_main none = none
    ∧ parse_main (some [none]) = none
    ∧ parse_main (some [some "f8879"]) = some [] := by
  refine ⟨?_, ?_, rfl, rfl, rfl⟩
  · intro d
    unfold parse_main
    by_cases h : find_tax_forms_from_doc d = []
    · simp [h]
    · simp [h]
  · intro d
    unfold parse_main
    by_cases h : find_tax_forms_from_doc d = []
    · simp [h]
    · simp [h]
